import Mathlib

/-!
Verification of the financial-helper extraction core.

This file gives a shallow embedding of the Consorsbank extraction engine:

* `src/transactions/extractor_consorsbank.py` — the text-based engine
  (`parse_amount`, `format_amount`, `convert_to_iso`, and the per-block
  processing loop of `extract_transactions` with its balance tracker);
* `src/code/extractor/pdf/consorsbank/dataframe_mapper.py` — the row-based
  mapper (`_split_into_blocks`, `_map_block_to_transaction`,
  `map_transactions`, `_parse_value`).

Python strings are modelled as `List Char`; Python `float` values as `ℚ`
(exact on the decimal amounts this pipeline manipulates); fallible code as
`Option`/`Except`.
-/

/-- Python strings are modelled as lists of characters. -/
abbrev Str := List Char

/-- Shorthand turning a Lean string literal into the `Str` model. -/
def L (s : String) : Str := s.data

/-- Whitespace test used by `str.strip()` (the whitespace characters that
occur in this pipeline's data). -/
def isSpaceC (c : Char) : Bool :=
  c.toNat = 32 || c.toNat = 9 || c.toNat = 10 || c.toNat = 13

/-- Model of Python `str.strip()`: drop whitespace from both ends. -/
def pyStrip (s : Str) : Str :=
  ((s.dropWhile isSpaceC).reverse.dropWhile isSpaceC).reverse

/-- Decimal digit test, as used when modelling Python `float()`. -/
def isDigC (c : Char) : Bool := 48 ≤ c.toNat && c.toNat ≤ 57

/-- Numeric value of a digit character. -/
def digVal (c : Char) : ℕ := c.toNat - 48

/-- Value of a string of decimal digits (most significant first). -/
def natOfDigits (s : Str) : ℕ := s.foldl (fun acc c => 10 * acc + digVal c) 0

/-- Unsigned decimal literals: a run of digits with at most one decimal
point — the body of Python's `float` grammar after the optional sign. -/
def parseFloatUnsigned (s : Str) : Option ℚ :=
  match s.dropWhile (fun c => c != '.') with
  | [] =>
    if s ≠ [] ∧ s.all isDigC then some (natOfDigits s) else none
  | _ :: fracPart =>
    if fracPart.all (fun c => c != '.') ∧
        (s.takeWhile (fun c => c != '.') ++ fracPart) ≠ [] ∧
        (s.takeWhile (fun c => c != '.')).all isDigC ∧ fracPart.all isDigC then
      some ((natOfDigits (s.takeWhile (fun c => c != '.')) : ℚ) +
        (natOfDigits fracPart : ℚ) / 10 ^ fracPart.length)
    else none

/-- Model of Python `float()` on the optionally signed decimal literals
this pipeline can produce: at most one leading `'-'` or `'+'`, then a run
of digits with at most one decimal point (so `float("-5.00")` is `-5.0`).
Exponent forms, `inf`/`nan` and digit underscores, which Python also
accepts, do not occur in this pipeline's data and are not modelled; every
call site strips surrounding whitespace before converting. Any other
input makes `float` raise, modelled as `none`. -/
def parseFloat (s : Str) : Option ℚ :=
  match s with
  | [] => none
  | c :: rest =>
    if c = '-' then (parseFloatUnsigned rest).map (fun q => -q)
    else if c = '+' then parseFloatUnsigned rest
    else parseFloatUnsigned (c :: rest)

/-- The decimal-separator conversion `replace(',', '.')` (single char). -/
def commaToDot (c : Char) : Char := if c = ',' then '.' else c

/-- Sign chosen by `parse_amount` from the trailing marker of the (stripped)
input: `'+'` and no marker give `1`, `'-'` gives `-1`. -/
def amountSign (s : Str) : ℚ :=
  if s.getLast? = some '+' then 1
  else if s.getLast? = some '-' then -1 else 1

/-- Normalisation done by `parse_amount` after the sign test: drop the last
character (`s[:-1]`), strip, remove `'.'` thousands separators, turn `','`
into `'.'`. -/
def amountBody (s : Str) : Str :=
  ((pyStrip s.dropLast).filter (fun c => c != '.')).map commaToDot

/-- Embedding of `PDFConsorsbankExtractor.parse_amount`
(src/transactions/extractor_consorsbank.py, lines 16–30): strip, read the
trailing sign marker, always drop the final character, normalise separators
and convert; a conversion failure returns `None`. -/
def parse_amount (s : Str) : Option ℚ :=
  (parseFloat (amountBody (pyStrip s))).map (fun q => amountSign (pyStrip s) * q)

/-- Digit character for a value below ten. -/
def digitChar : ℕ → Char
  | 0 => '0' | 1 => '1' | 2 => '2' | 3 => '3' | 4 => '4'
  | 5 => '5' | 6 => '6' | 7 => '7' | 8 => '8' | _ => '9'

/-- Fuel-driven decimal rendering of a natural number (structural recursion
so that the kernel can evaluate it). -/
def natToStrGo (fuel : ℕ) (n : ℕ) : Str :=
  match fuel with
  | 0 => []
  | fuel + 1 =>
    if n < 10 then [digitChar n] else natToStrGo fuel (n / 10) ++ [digitChar (n % 10)]

/-- Decimal rendering of a natural number, most significant digit first. -/
def natToStr (n : ℕ) : Str := natToStrGo (n + 1) n

/-- Two-digit rendering of a value below one hundred (the fractional part
produced by Python's `f"{x:.2f}"`). -/
def pad2 (r : ℕ) : Str := if r < 10 then '0' :: [digitChar r] else natToStr r

/-- Cents of the absolute value, rounded to the nearest integer. Python's
`f"{abs(val):.2f}"` rounds ties to even on binary floats; on the exact
two-decimal amounts the claims quantify over, no rounding happens and all
modes agree. -/
def centsOf (q : ℚ) : ℕ := (Int.floor (|q| * 100 + 1 / 2)).toNat

/-- Digits-and-comma body of `format_amount` (`f"{abs(val):.2f}"` with the
decimal point replaced by a comma; Python's fixed-point format emits no
thousands separators). -/
def formatBody (q : ℚ) : Str :=
  natToStr (centsOf q / 100) ++ ',' :: pad2 (centsOf q % 100)

/-- Embedding of `PDFConsorsbankExtractor.format_amount`
(src/transactions/extractor_consorsbank.py, lines 32–37) on an actual
number; the `None ↦ ""` branch of the source is not reachable from the
call site embedded here. -/
def formatAmount (q : ℚ) : Str :=
  formatBody q ++ [if 0 ≤ q then '+' else '-']

/-- Shared shape of both date patterns of `convert_to_iso`: two digits, a
dot, two digits, a dot, and the remaining characters (the year captures of
`re.fullmatch` restrict that remainder further). -/
def dateParts (s : Str) : Option (Char × Char × Char × Char × Str) :=
  match s with
  | d1 :: d2 :: '.' :: m1 :: m2 :: '.' :: rest =>
    if isDigC d1 && isDigC d2 && isDigC m1 && isDigC m2 then
      some (d1, d2, m1, m2, rest)
    else none
  | _ => none

/-- Recognition of a full match of `(\d{2})\.(\d{2})\.(\d{2,4})` (the
first pattern of `convert_to_iso`). -/
def fullDateShape (s : Str) : Bool :=
  match dateParts s with
  | some (_, _, _, _, rest) =>
    rest.all isDigC && decide (2 ≤ rest.length) && decide (rest.length ≤ 4)
  | none => false

/-- Recognition of a full match of `(\d{2})\.(\d{2})\.` (the second
pattern of `convert_to_iso`). -/
def elidedDateShape (s : Str) : Bool :=
  match dateParts s with
  | some (_, _, _, _, rest) => rest.isEmpty
  | none => false

/-- Embedding of `PDFConsorsbankExtractor.convert_to_iso`
(src/transactions/extractor_consorsbank.py, lines 39–52): strip the input;
a full `dd.mm.yy(yy)` match is reordered to ISO with a fixed `20` prefix
on two-digit years; otherwise a year-elided `dd.mm.` match uses the
inferred year when one is present (Python truthiness: `None` and the
empty string both fail); everything else returns the stripped input. The
`re.fullmatch` calls are modelled by `dateParts` plus the year-remainder
tests. -/
def convert_to_iso (datumStr : Str) (globalYear : Option Str) : Str :=
  match dateParts (pyStrip datumStr) with
  | some (d1, d2, m1, m2, rest) =>
    if rest ≠ [] then
      (if rest.all isDigC ∧ 2 ≤ rest.length ∧ rest.length ≤ 4 then
        (if rest.length = 2 then '2' :: '0' :: rest else rest) ++
          '-' :: m1 :: m2 :: '-' :: [d1, d2]
      else pyStrip datumStr)
    else if (globalYear.getD []) ≠ [] then
      (globalYear.getD []) ++ '-' :: m1 :: m2 :: '-' :: [d1, d2]
    else pyStrip datumStr
  | none => pyStrip datumStr

/-- Splitting a text on a separator character, as Python `str.splitlines`
does for the newline-separated text this engine receives (pdfminer output
uses `'\n'`; the subsequent strip-and-drop-empties step makes the two
agree on trailing separators). -/
def splitOnChar (sep : Char) : Str → List Str
  | [] => [[]]
  | c :: rest =>
    if c = sep then [] :: splitOnChar sep rest
    else
      match splitOnChar sep rest with
      | [] => [[c]]
      | h :: t => (c :: h) :: t

/-- Model of `.strip().replace('\n', ' ')` applied to description text. -/
def stripNl (s : Str) : Str :=
  (pyStrip s).map (fun c => if c = '\n' then ' ' else c)

/-- Group 1 of `re.match(r'^(\d{2}\.\d{2}\.?\d{0,4})', line)`: two digits,
a dot, two digits, an optional dot, then greedily up to four digits; `none`
when the line does not start with that shape. -/
def matchDatePre (l : Str) : Option Str :=
  match l with
  | c1 :: c2 :: '.' :: c3 :: c4 :: rest =>
    if isDigC c1 && isDigC c2 && isDigC c3 && isDigC c4 then
      match rest with
      | '.' :: r2 => some (c1 :: c2 :: '.' :: c3 :: c4 :: '.' :: ((r2.takeWhile isDigC).take 4))
      | _ => some (c1 :: c2 :: '.' :: c3 :: c4 :: ((rest.takeWhile isDigC).take 4))
    else none
  | _ => none

/-- The date-recovery scan of the GUTSCHRIFT branch
(src/transactions/extractor_consorsbank.py, lines 86–96): find the first
(already stripped, non-empty) line starting with a date shape; the value
date comes from the immediately following line when that also starts with
a date shape, else stays empty. -/
def findDatesIn : List Str → Str × Str
  | [] => ([], [])
  | l :: rest =>
    match matchDatePre l with
    | some d =>
      (d, match rest with
          | [] => []
          | l2 :: _ => (matchDatePre l2).getD [])
    | none => findDatesIn rest

/-- Result of `detail_pattern.search` on a block: the four captured groups
plus the text preceding the match (which the source recovers as
`block[:detail_match.start()]`). The regex layer that produces it is the
external text-recovery collaborator. -/
structure Detail where
  datum : Str
  pnnr : Str
  wert : Str
  amount : Str
  before : Str
deriving Repr, DecidableEq

/-- One block found by `block_pattern` in the document text: the `type`
group, the block body, and the results of the two secondary regex searches
on that body (`detail_pattern.search`, given as `detail?`, and the
`balance` capture of `balance_pattern.search`, given as `balance?`).
The regex layer that produces these is the external text-recovery
collaborator; the per-block state machine below is the embedded core. -/
structure TextBlock where
  transType : Str
  blockText : Str
  detail? : Option Detail
  balance? : Option Str
deriving Repr, DecidableEq

/-- Transaction record of the text engine. Modelled from the spec: the
`Transaction` class (src/transactions/transaction.py) is not under src/;
the spec's data model (§3) and the constructor call
`Transaction(datum_iso, full_description, amount_val, "", pdf_path,
bank="Consorsbank", currency="", invoice="", to="")` fix a plain record
whose constructor stores its arguments. -/
structure TTx where
  date : Str
  description : Str
  value : Option ℚ
  sender : Str
  source : Str
  bank : Str
  currency : Str
  invoice : Str
  toField : Str
deriving Repr, DecidableEq

/-- The checkpoint value a block yields: the parsed `balance` capture when
`balance_pattern` matched, `None` otherwise
(src/transactions/extractor_consorsbank.py, lines 99–102). -/
def currentBalanceOf (b : TextBlock) : Option ℚ :=
  match b.balance? with
  | some bs => parse_amount bs
  | none => none

/-- The debit-style types of the text engine (`LASTSCHRIFT` and
`EURO-UEBERW.`), whose blocks require a detail match. -/
def isDebitType (t : Str) : Bool :=
  t == L "LASTSCHRIFT" || t == L "EURO-UEBERW."

/-- Date pair recovered by the GUTSCHRIFT line scan from the raw block
text: split into lines, strip them, drop the empty ones, then scan
(src/transactions/extractor_consorsbank.py, line 86 and the loop below
it). -/
def gutschriftDates (blockText : Str) : Str × Str :=
  findDatesIn (((splitOnChar '\n' blockText).map pyStrip).filter (fun l => l ≠ []))

/-- Raw field recovery for one block
(src/transactions/extractor_consorsbank.py, lines 78–97): debit-style
blocks take datum, value date and amount from the detail match and are
skipped (`continue`, modelled as `none`) when there is none; GUTSCHRIFT
blocks scan their lines for two date tokens and never carry a direct
amount. -/
def blockRawFields (b : TextBlock) : Option (Str × Str × Str) :=
  if isDebitType (pyStrip b.transType) then
    match b.detail? with
    | none => none
    | some d => some (pyStrip d.datum, pyStrip d.wert, pyStrip d.amount)
  else
    some ((gutschriftDates b.blockText).1, (gutschriftDates b.blockText).2, [])

/-- Amount string after the balance-difference inference
(src/transactions/extractor_consorsbank.py, lines 103–108): a GUTSCHRIFT
block whose direct amount is empty or unparsable takes
`format_amount(current − previous)` when both checkpoints exist, else the
empty string. -/
def inferredAmount (transType : Str) (amount0 : Str) (prev cur : Option ℚ) : Str :=
  if transType = L "GUTSCHRIFT" ∧ (amount0 = [] ∨ parse_amount amount0 = none) then
    match prev, cur with
    | some p, some c => formatAmount (c - p)
    | _, _ => []
  else amount0

/-- Description text for one block
(src/transactions/extractor_consorsbank.py, lines 109–112): text before
the detail match for debit-style blocks that have one, the whole block
otherwise, stripped and with newlines flattened. -/
def blockDescription (b : TextBlock) : Str :=
  if isDebitType (pyStrip b.transType) then
    match b.detail? with
    | some d => stripNl d.before
    | none => stripNl b.blockText
  else stripNl b.blockText

/-- Transaction built for one non-skipped block
(src/transactions/extractor_consorsbank.py, lines 98 and 109–117): the
normalised date (empty date strings stay empty), the type-prefixed
description, the parsed amount, and the constant constructor arguments. -/
def mkTTx (pdfPath : Str) (globalYear : Option Str) (b : TextBlock)
    (datumRaw amountExtracted : Str) : TTx :=
  { date := if datumRaw ≠ [] then convert_to_iso datumRaw globalYear else []
    description := pyStrip b.transType ++ L ": " ++ blockDescription b
    value := parse_amount amountExtracted
    sender := []
    source := pdfPath
    bank := L "Consorsbank"
    currency := []
    invoice := []
    toField := [] }

/-- Line 120–121 of the source: `previous_balance` is advanced to the
block's checkpoint when one was found, else kept. -/
def advanceBalance (prev cur : Option ℚ) : Option ℚ :=
  match cur with
  | some c => some c
  | none => prev

/-- Embedding of one iteration of the block loop of
`PDFConsorsbankExtractor.extract_transactions`
(src/transactions/extractor_consorsbank.py, lines 75–121): given the
balance-tracker state `prev`, produce the new state and the emitted
transaction, if any. Skipped debit-style blocks (no detail match) leave
the state untouched and emit nothing; every other block emits a
transaction, and advances `previous_balance` to the block's checkpoint
exactly when the block has a parsable one. -/
def processBlock (pdfPath : Str) (globalYear : Option Str) (prev : Option ℚ)
    (b : TextBlock) : Option ℚ × Option TTx :=
  match blockRawFields b with
  | none => (prev, none)
  | some (datumRaw, _wertRaw, amount0) =>
    (advanceBalance prev (currentBalanceOf b),
     some (mkTTx pdfPath globalYear b datumRaw
       (inferredAmount (pyStrip b.transType) amount0 prev (currentBalanceOf b))))

/-- The block loop of `extract_transactions`: thread the balance tracker
through the blocks in document order, collecting the emitted
transactions. -/
def runEngine (pdfPath : Str) (globalYear : Option Str) :
    List TextBlock → Option ℚ → List TTx
  | [], _ => []
  | b :: bs, prev =>
    match processBlock pdfPath globalYear prev b with
    | (prev', some t) => t :: runEngine pdfPath globalYear bs prev'
    | (prev', none) => runEngine pdfPath globalYear bs prev'

/-- Embedding of `PDFConsorsbankExtractor.extract_transactions` given the
blocks recovered from the document text by `block_pattern` (the regex
layer being the external text-recovery collaborator); `previous_balance`
starts as `None` (constructor, line 12). -/
def extract_transactions (pdfPath : Str) (globalYear : Option Str)
    (blocks : List TextBlock) : List TTx :=
  runEngine pdfPath globalYear blocks none

/-- Boolean substring test, modelling Python's `pat in hay`: does `pat`
occur contiguously inside `hay`? -/
def startsWithStr : Str → Str → Bool
  | _, [] => true
  | [], _ :: _ => false
  | c :: cs, p :: ps => c == p && startsWithStr cs ps

/-- Substring occurrence (`pat in hay` in Python). -/
def containsSub : Str → Str → Bool
  | [], pat => startsWithStr [] pat
  | c :: rest, pat => startsWithStr (c :: rest) pat || containsSub rest pat

/-- One row of the Consorsbank DataFrame, with the columns the mapper
reads (`Text/Verwendungszweck`, `PNNr`, `Soll`, `Haben`) and the date
columns (`Datum`, `Wert`) that appear in the source only inside
commented-out lines. Missing cells are the empty string (`row.get(…, "")`
followed by `str`). -/
structure Row where
  text : Str
  pnnr : Str
  soll : Str
  haben : Str
  datum : Str
  wert : Str
deriving Repr, DecidableEq

/-- The trigger lexicon of `ConsorsbankDataframeMapper.TRIGGERS`
(src/code/extractor/pdf/consorsbank/dataframe_mapper.py, line 24). -/
def TRIGGERS : List Str :=
  [L "*** Kontostand zum", L "LASTSCHRIFT", L "GEBUEHREN",
   L "EURO-UEBERW.", L "GUTSCHRIFT", L "DAUERAUFTRAG"]

/-- The balance-checkpoint marker. -/
def checkpointMarker : Str := L "*** Kontostand zum"

/-- Does a row's stripped text field contain any trigger
(`any(trigger in text_val for trigger in self.TRIGGERS)`)? -/
def isTriggerRow (r : Row) : Bool :=
  TRIGGERS.any (fun g => containsSub (pyStrip r.text) g)

/-- One step of the row loop of `_split_into_blocks`
(src/code/extractor/pdf/consorsbank/dataframe_mapper.py, lines 62–74):
a trigger row closes the current block (when non-empty) and opens a new
one; any other row is appended to the current block. -/
def splitStep (acc : List (List Row) × List Row) (r : Row) :
    List (List Row) × List Row :=
  if isTriggerRow r then
    (if acc.2 = [] then acc.1 else acc.1 ++ [acc.2], [r])
  else (acc.1, acc.2 ++ [r])

/-- Closing step of `_split_into_blocks` (lines 76–78): append the last
open block when non-empty. -/
def splitFinish (acc : List (List Row) × List Row) : List (List Row) :=
  if acc.2 = [] then acc.1 else acc.1 ++ [acc.2]

/-- Embedding of `ConsorsbankDataframeMapper._split_into_blocks`
(src/code/extractor/pdf/consorsbank/dataframe_mapper.py, lines 54–80). -/
def splitIntoBlocks (rows : List Row) : List (List Row) :=
  splitFinish (rows.foldl splitStep ([], []))

/-- Account-holder record of the mapper's transactions. Modelled from the
spec: the `Transaction` model class (src/code/model/transaction.py) is not
under src/; §3 of the spec gives `owner`/`partner` as plain name/id/
institute records and the setters as plain stores. -/
structure MOwner where
  name : Str
  ownerId : Str
  institute : Str
deriving Repr, DecidableEq

/-- Counterparty record of the mapper's transactions (see `MOwner`). -/
structure MPartner where
  name : Str
  institute : Str
deriving Repr, DecidableEq

/-- Transaction record produced by the row-based mapper. Modelled from the
spec: the `Transaction` class (src/code/model/transaction.py) is not under
src/; §3 of the spec fixes its fields, its setters
(`setValutaDate`/`setTransactionDate`) store their argument, and the
description of a freshly constructed transaction is empty. -/
structure MTx where
  id : Str
  transaction_date : Str
  valuta_date : Str
  currency : Str
  txType : Str
  description : Str
  owner : MOwner
  partner : MPartner
  value : ℚ
  source : Str
deriving Repr, DecidableEq

/-- Embedding of `ConsorsbankDataframeMapper._parse_value`
(src/code/extractor/pdf/consorsbank/dataframe_mapper.py, lines 132–145):
a populated `Soll` string is normalised (drop `'.'`, `','` to `'.'`, drop
every `'-'`) and negated; otherwise a populated `Haben` string is
normalised (drop `'.'`, `','` to `'.'`, drop every `'+'`) and returned as
is; conversion failure and the both-empty case give `None`. -/
def parseValue (sollStr habenStr : Str) : Option ℚ :=
  if sollStr ≠ [] then
    (parseFloat (((sollStr.filter (fun c => c != '.')).map commaToDot).filter
      (fun c => c != '-'))).map (fun q => -q)
  else if habenStr ≠ [] then
    parseFloat (((habenStr.filter (fun c => c != '.')).map commaToDot).filter
      (fun c => c != '+'))
  else none

/-- Fallback of `str.strip() or default` (Python `or` on strings). -/
def orDefault (s dflt : Str) : Str := if s = [] then dflt else s

/-- Embedding of `ConsorsbankDataframeMapper._map_block_to_transaction`
(src/code/extractor/pdf/consorsbank/dataframe_mapper.py, lines 82–115).
A block whose first row contains the checkpoint marker maps to nothing
(the source falls off the `if` and returns `None`). Any other block
builds a transaction from fixed constants plus positional fields; the
source indexes `block[1]`/`block[2]` through variables that are `None`
for blocks shorter than three rows, so `.get` on them raises
`AttributeError`, modelled as `Except.error`. An empty block would
likewise raise on `block[0]`; the segmenter never produces one. -/
def mapBlockToTransaction (source : Str) (block : List Row) :
    Except Str (Option MTx) :=
  match block with
  | [] => .error (L "IndexError: block[0]")
  | first :: _ =>
    if containsSub (pyStrip first.text) checkpointMarker then .ok none
    else
      match block[1]?, block[2]? with
      | some r1, some r2 =>
        .ok (some
          { id := pyStrip first.pnnr
            transaction_date := L "1993-09-07"
            valuta_date := L "1993-09-07"
            currency := L "EUR"
            txType := pyStrip first.text
            description :=
              match block[3]? with
              | some r3 => pyStrip r3.text
              | none => []
            owner := { name := L "Max", ownerId := L "testid", institute := L "Consorsbank" }
            partner :=
              { name := orDefault (pyStrip r1.text) (L "Moritz")
                institute := orDefault (pyStrip r2.text) (L "Blööb") }
            value := (parseValue (pyStrip first.soll) (pyStrip first.haben)).getD 0
            source := source })
      | _, _ => .error (L "AttributeError: NoneType has no attribute get")

/-- Mapping every block in order, as the loop of `map_transactions`
(src/code/extractor/pdf/consorsbank/dataframe_mapper.py, lines 44–51):
mapped transactions are collected, `None` results are skipped, and an
exception aborts the whole run. -/
def mapBlocks (source : Str) : List (List Row) → Except Str (List MTx)
  | [] => .ok []
  | b :: bs =>
    match mapBlockToTransaction source b with
    | .error e => .error e
    | .ok t? =>
      match mapBlocks source bs with
      | .error e => .error e
      | .ok rest =>
        .ok (match t? with
             | some t => t :: rest
             | none => rest)

/-- Embedding of `ConsorsbankDataframeMapper.map_transactions`
(src/code/extractor/pdf/consorsbank/dataframe_mapper.py, lines 35–52):
split the rows into blocks, then map each block. -/
def map_transactions (source : Str) (rows : List Row) : Except Str (List MTx) :=
  mapBlocks source (splitIntoBlocks rows)

/-- Embedding of `ConsorsbankDataframeMapper.getId`
(src/code/extractor/pdf/consorsbank/dataframe_mapper.py, lines 31–33):
advance the counter and return its new value. No call site exists in the
source; `_map_block_to_transaction` never consults it. -/
def getId (idState : ℕ) : ℕ × ℕ := (idState + 1, idState + 1)

/-- Debit/credit-column rendering of a signed value. Modelled from the
spec: src/ contains no column-direction formatter (`format_amount` emits
only the signed-suffix encoding); §8's round-trip property for the column
encoding presumes the evident encoder, which renders the magnitude the way
`format_amount` does and populates the debit (`Soll`) column for negative
values and the credit (`Haben`) column otherwise. -/
def formatColumns (q : ℚ) : Str × Str :=
  if q < 0 then (formatBody q, []) else ([], formatBody q)

/-- Row with a given text field and everything else empty (hand-built test
rows for concrete inputs). -/
def mkRow (t : String) : Row :=
  { text := L t, pnnr := [], soll := [], haben := [], datum := [], wert := [] }

/-- Ids of the transactions of a mapper run (empty on an aborted run). -/
def idsOf (r : Except Str (List MTx)) : List Str :=
  match r with
  | .ok ts => ts.map (fun t => t.id)
  | .error _ => []

/-- Types of the transactions of a mapper run (empty on an aborted run). -/
def typesOf (r : Except Str (List MTx)) : List Str :=
  match r with
  | .ok ts => ts.map (fun t => t.txType)
  | .error _ => []

/-- Concrete GUTSCHRIFT block with an embedded checkpoint of 1250.00
(test input). -/
def blkGut : TextBlock :=
  { transType := L "GUTSCHRIFT", blockText := L "Gutschrift line"
    detail? := none, balance? := some (L "1.250,00+") }

/-- Concrete GUTSCHRIFT block with an embedded checkpoint of 1200.00
(test input). -/
def blkGut2 : TextBlock :=
  { transType := L "GUTSCHRIFT", blockText := L "x"
    detail? := none, balance? := some (L "1200,00+") }

/-- Concrete LASTSCHRIFT block with no detail match but an embedded
checkpoint of 1200.00 (test input). -/
def blkSkip : TextBlock :=
  { transType := L "LASTSCHRIFT", blockText := L "*** Kontostand zum EUR 1200,00+"
    detail? := none, balance? := some (L "1200,00+") }

/-- Concrete trigger row carrying a reference number (test input). -/
def rowPn : Row :=
  { text := L "LASTSCHRIFT", pnnr := L "417", soll := [], haben := []
    datum := [], wert := [] }

/-- Concrete three-row block headed by `rowPn` (test input). -/
def blockPn : List Row := [rowPn, mkRow "partner", mkRow "institute"]

/-- The transaction the mapper produces from `blockPn` (test fixture). -/
def txPn : MTx :=
  { id := L "417", transaction_date := L "1993-09-07"
    valuta_date := L "1993-09-07", currency := L "EUR"
    txType := L "LASTSCHRIFT", description := []
    owner := { name := L "Max", ownerId := L "testid", institute := L "Consorsbank" }
    partner := { name := L "partner", institute := L "institute" }
    value := 0, source := L "doc" }

/-- Concrete three-row GUTSCHRIFT block (test input). -/
def block9 : List Row := [mkRow "GUTSCHRIFT", mkRow "p", mkRow "i"]

/-- The transaction the mapper produces from `block9` (test fixture). -/
def tx9 : MTx :=
  { id := [], transaction_date := L "1993-09-07"
    valuta_date := L "1993-09-07", currency := L "EUR"
    txType := L "GUTSCHRIFT", description := []
    owner := { name := L "Max", ownerId := L "testid", institute := L "Consorsbank" }
    partner := { name := L "p", institute := L "i" }
    value := 0, source := L "d" }

/-! Character-level facts. -/

theorem isDigC_ne_dot {c : Char} (h : isDigC c = true) : c ≠ '.' := by
  intro e; subst e; exact absurd h (by decide)

theorem isDigC_ne_comma {c : Char} (h : isDigC c = true) : c ≠ ',' := by
  intro e; subst e; exact absurd h (by decide)

theorem isDigC_ne_minus {c : Char} (h : isDigC c = true) : c ≠ '-' := by
  intro e; subst e; exact absurd h (by decide)

theorem isDigC_ne_plus {c : Char} (h : isDigC c = true) : c ≠ '+' := by
  intro e; subst e; exact absurd h (by decide)

theorem isDigC_bne_dot {c : Char} (h : isDigC c = true) : (c != '.') = true := by
  simpa using isDigC_ne_dot h

theorem isDigC_not_space {c : Char} (h : isDigC c = true) : isSpaceC c = false := by
  simp only [isDigC, Bool.and_eq_true, decide_eq_true_eq] at h
  simp only [isSpaceC, Bool.or_eq_false_iff, decide_eq_false_iff_not]
  omega

theorem commaToDot_of_digit {c : Char} (h : isDigC c = true) : commaToDot c = c := by
  simp [commaToDot, isDigC_ne_comma h]

theorem digitChar_isDigC {n : ℕ} (h : n < 10) : isDigC (digitChar n) = true := by
  interval_cases n <;> decide

theorem digVal_digitChar {n : ℕ} (h : n < 10) : digVal (digitChar n) = n := by
  interval_cases n <;> decide

/-! Decimal rendering and its inverse. -/

theorem natToStrGo_congr :
    ∀ (n f f' : ℕ), n < f → n < f' → natToStrGo f n = natToStrGo f' n := by
  intro n
  induction n using Nat.strong_induction_on with
  | _ n ih =>
    intro f f' hf hf'
    match f, f' with
    | f + 1, f' + 1 =>
      simp only [natToStrGo]
      by_cases h10 : n < 10
      · simp [h10]
      · have hdiv : n / 10 < n := Nat.div_lt_self (by omega) (by omega)
        simp only [h10, if_false]
        rw [ih (n / 10) hdiv (f) (f') (by omega) (by omega)]

theorem natToStr_eq (n : ℕ) :
    natToStr n =
      if n < 10 then [digitChar n]
      else natToStr (n / 10) ++ [digitChar (n % 10)] := by
  by_cases h10 : n < 10
  · simp [natToStr, natToStrGo, h10]
  · have hdiv : n / 10 < n := Nat.div_lt_self (by omega) (by omega)
    have h1 : natToStr n = natToStrGo n (n / 10) ++ [digitChar (n % 10)] := by
      simp [natToStr, natToStrGo, h10]
    rw [h1, if_neg h10,
      natToStrGo_congr (n / 10) n (n / 10 + 1) (by omega) (by omega)]
    rfl

theorem natToStr_all_dig (n : ℕ) : (natToStr n).all isDigC = true := by
  induction n using Nat.strong_induction_on with
  | _ n ih =>
    rw [natToStr_eq]
    by_cases h10 : n < 10
    · simp [h10, digitChar_isDigC h10]
    · have hdiv : n / 10 < n := Nat.div_lt_self (by omega) (by omega)
      have hm : n % 10 < 10 := Nat.mod_lt _ (by omega)
      simp [h10, List.all_append, ih (n / 10) hdiv, digitChar_isDigC hm]

theorem natToStr_ne_nil (n : ℕ) : natToStr n ≠ [] := by
  rw [natToStr_eq]
  by_cases h10 : n < 10 <;> simp [h10]

theorem natOfDigits_from (b : Str) :
    ∀ i : ℕ, b.foldl (fun acc c => 10 * acc + digVal c) i
      = i * 10 ^ b.length + natOfDigits b := by
  induction b with
  | nil => intro i; simp [natOfDigits]
  | cons c t ih =>
    intro i
    rw [List.foldl_cons, ih (10 * i + digVal c)]
    have hvc : natOfDigits (c :: t) = digVal c * 10 ^ t.length + natOfDigits t := by
      have h0 : natOfDigits (c :: t)
          = t.foldl (fun acc c => 10 * acc + digVal c) (10 * 0 + digVal c) := rfl
      rw [h0, ih (10 * 0 + digVal c)]
      ring
    rw [hvc, List.length_cons]
    ring

theorem natOfDigits_append (a b : Str) :
    natOfDigits (a ++ b) = natOfDigits a * 10 ^ b.length + natOfDigits b := by
  simp only [natOfDigits, List.foldl_append]
  exact natOfDigits_from b _

theorem natOfDigits_natToStr (n : ℕ) : natOfDigits (natToStr n) = n := by
  induction n using Nat.strong_induction_on with
  | _ n ih =>
    rw [natToStr_eq]
    by_cases h10 : n < 10
    · simp [h10, natOfDigits, digVal_digitChar h10]
    · have hdiv : n / 10 < n := Nat.div_lt_self (by omega) (by omega)
      have hm : n % 10 < 10 := Nat.mod_lt _ (by omega)
      simp only [h10, if_false]
      rw [natOfDigits_append, ih (n / 10) hdiv]
      simp [natOfDigits, digVal_digitChar hm]
      omega

theorem pad2_all_dig {r : ℕ} (h : r < 100) : (pad2 r).all isDigC = true := by
  unfold pad2
  by_cases h10 : r < 10
  · rw [if_pos h10]
    simp only [List.all_cons, List.all_nil, Bool.and_true]
    rw [digitChar_isDigC h10]
    decide
  · simp [h10, natToStr_all_dig]

theorem pad2_length {r : ℕ} (h : r < 100) : (pad2 r).length = 2 := by
  unfold pad2
  by_cases h10 : r < 10
  · simp [h10]
  · have hdiv : r / 10 < 10 := by omega
    simp only [h10, if_false]
    rw [natToStr_eq, if_neg h10, natToStr_eq, if_pos hdiv]
    simp

theorem natOfDigits_pad2 {r : ℕ} (h : r < 100) : natOfDigits (pad2 r) = r := by
  unfold pad2
  by_cases h10 : r < 10
  · rw [if_pos h10]
    have h0 : digVal '0' = 0 := by decide
    simp [natOfDigits, List.foldl_cons, List.foldl_nil, h0, digVal_digitChar h10]
  · simp only [h10, if_false]
    exact natOfDigits_natToStr r

/-! Strip and split facts. -/

theorem dropWhile_eq_self_of {p : Char → Bool} {s : Str}
    (h : ∀ c ∈ s, p c = false) : s.dropWhile p = s := by
  cases s with
  | nil => rfl
  | cons c t => simp [List.dropWhile_cons, h c (by simp)]

theorem pyStrip_eq_self {s : Str} (h : ∀ c ∈ s, isSpaceC c = false) :
    pyStrip s = s := by
  unfold pyStrip
  rw [dropWhile_eq_self_of h, dropWhile_eq_self_of (by
    intro c hc
    exact h c (by simpa using hc)), List.reverse_reverse]

theorem takeWhile_append_of {p : Char → Bool} (a : Str) {x : Char} (r : Str)
    (ha : ∀ c ∈ a, p c = true) (hx : p x = false) :
    (a ++ x :: r).takeWhile p = a := by
  induction a with
  | nil => simp [List.takeWhile_cons, hx]
  | cons c t ih =>
    have hc : p c = true := ha c (by simp)
    have ih' := ih (fun d hd => ha d (by simp [hd]))
    simp [List.takeWhile_cons, hc, ih']

theorem dropWhile_append_of {p : Char → Bool} (a : Str) {x : Char} (r : Str)
    (ha : ∀ c ∈ a, p c = true) (hx : p x = false) :
    (a ++ x :: r).dropWhile p = x :: r := by
  induction a with
  | nil => simp [List.dropWhile_cons, hx]
  | cons c t ih =>
    simp only [List.cons_append, List.dropWhile_cons, ha c (by simp)]
    exact ih (fun c hc => ha c (by simp [hc]))

theorem dropWhile_eq_nil_of {p : Char → Bool} {s : Str}
    (h : ∀ c ∈ s, p c = true) : s.dropWhile p = [] := by
  induction s with
  | nil => rfl
  | cons c t ih =>
    simp only [List.dropWhile_cons, h c (by simp)]
    exact ih (fun c hc => h c (by simp [hc]))

/-! Evaluation lemmas for the float model. -/

theorem parseFloatUnsigned_digits {s : Str} (hd : s.all isDigC = true)
    (hne : s ≠ []) : parseFloatUnsigned s = some (natOfDigits s) := by
  unfold parseFloatUnsigned
  have hdrop : s.dropWhile (fun c => c != '.') = [] :=
    dropWhile_eq_nil_of (fun c hc => isDigC_bne_dot (by
      exact List.all_eq_true.mp hd c hc))
  rw [hdrop]
  simp [hne, hd]

theorem parseFloatUnsigned_dot (a b : Str) (ha : a.all isDigC = true)
    (hb : b.all isDigC = true) (hne : a ++ b ≠ []) :
    parseFloatUnsigned (a ++ '.' :: b)
      = some ((natOfDigits a : ℚ) + (natOfDigits b : ℚ) / 10 ^ b.length) := by
  have hamem : ∀ c ∈ a, (c != '.') = true :=
    fun c hc => isDigC_bne_dot (List.all_eq_true.mp ha c hc)
  have hdot : (('.' : Char) != '.') = false := by decide
  have htake : (a ++ '.' :: b).takeWhile (fun c => c != '.') = a :=
    takeWhile_append_of a b hamem hdot
  have hdrop : (a ++ '.' :: b).dropWhile (fun c => c != '.') = '.' :: b :=
    dropWhile_append_of a b hamem hdot
  unfold parseFloatUnsigned
  rw [hdrop]
  simp only [htake]
  have hbne : b.all (fun c => c != '.') = true :=
    List.all_eq_true.mpr (fun c hc => isDigC_bne_dot (List.all_eq_true.mp hb c hc))
  simp [hbne, hne, ha, hb]

theorem parseFloatUnsigned_nonneg {s : Str} {q : ℚ}
    (h : parseFloatUnsigned s = some q) : 0 ≤ q := by
  unfold parseFloatUnsigned at h
  rcases hdw : s.dropWhile (fun c => c != '.') with _ | ⟨c, frac⟩ <;>
      rw [hdw] at h <;> dsimp only at h
  · split_ifs at h with hcond
    injection h with h'
    rw [← h']
    positivity
  · split_ifs at h with hcond
    injection h with h'
    rw [← h']
    positivity

theorem parseFloat_minus (t : Str) :
    parseFloat ('-' :: t) = (parseFloatUnsigned t).map (fun q => -q) := by
  simp [parseFloat]

theorem parseFloat_cons_ne {c : Char} (t : Str) (h1 : c ≠ '-') (h2 : c ≠ '+') :
    parseFloat (c :: t) = parseFloatUnsigned (c :: t) := by
  simp [parseFloat, h1, h2]

theorem parseFloat_digits {s : Str} (hd : s.all isDigC = true) (hne : s ≠ []) :
    parseFloat s = some (natOfDigits s) := by
  rcases s with _ | ⟨c, t⟩
  · exact absurd rfl hne
  · have hc : isDigC c = true := List.all_eq_true.mp hd c (by simp)
    rw [parseFloat_cons_ne t (isDigC_ne_minus hc) (isDigC_ne_plus hc)]
    exact parseFloatUnsigned_digits hd hne

theorem parseFloat_dot (a b : Str) (ha : a.all isDigC = true)
    (hb : b.all isDigC = true) (hane : a ≠ []) :
    parseFloat (a ++ '.' :: b)
      = some ((natOfDigits a : ℚ) + (natOfDigits b : ℚ) / 10 ^ b.length) := by
  rcases a with _ | ⟨c, t⟩
  · exact absurd rfl hane
  · have hc : isDigC c = true := List.all_eq_true.mp ha c (by simp)
    rw [List.cons_append,
      parseFloat_cons_ne _ (isDigC_ne_minus hc) (isDigC_ne_plus hc),
      ← List.cons_append]
    exact parseFloatUnsigned_dot (c :: t) b ha hb (by simp)

theorem parseFloat_nonneg_of_no_minus {s : Str} {q : ℚ}
    (hm : '-' ∉ s) (h : parseFloat s = some q) : 0 ≤ q := by
  rcases s with _ | ⟨c, t⟩
  · simp [parseFloat] at h
  · have hc : c ≠ '-' := fun e => hm (by rw [e]; exact List.mem_cons_self _ _)
    by_cases hcp : c = '+'
    · subst hcp
      rw [show parseFloat ('+' :: t) = parseFloatUnsigned t from by
        simp [parseFloat]] at h
      exact parseFloatUnsigned_nonneg h
    · rw [parseFloat_cons_ne t hc hcp] at h
      exact parseFloatUnsigned_nonneg h

/-! Round-trip of formatting and parsing. -/

theorem isDigC_bne_minus {c : Char} (h : isDigC c = true) : (c != '-') = true := by
  have : c ≠ '-' := by intro e; subst e; exact absurd h (by decide)
  simpa using this

theorem isDigC_bne_plus {c : Char} (h : isDigC c = true) : (c != '+') = true := by
  have : c ≠ '+' := by intro e; subst e; exact absurd h (by decide)
  simpa using this

theorem map_commaToDot_digits {s : Str} (h : s.all isDigC = true) :
    s.map commaToDot = s := by
  induction s with
  | nil => rfl
  | cons c t ih =>
    simp only [List.all_cons, Bool.and_eq_true] at h
    simp [commaToDot_of_digit h.1, ih h.2]

theorem filter_bne_dot_digits {s : Str} (h : s.all isDigC = true) :
    s.filter (fun c => c != '.') = s :=
  List.filter_eq_self.mpr (fun c hc => isDigC_bne_dot (List.all_eq_true.mp h c hc))

theorem formatBody_chars {q : ℚ} :
    ∀ c ∈ formatBody q, isDigC c = true ∨ c = ',' := by
  intro c hc
  unfold formatBody at hc
  rcases List.mem_append.mp hc with h | h
  · exact Or.inl (List.all_eq_true.mp (natToStr_all_dig _) c h)
  · rcases List.mem_cons.mp h with h | h
    · exact Or.inr h
    · exact Or.inl (List.all_eq_true.mp
        (pad2_all_dig (Nat.mod_lt _ (by norm_num))) c h)

theorem formatBody_nospace {q : ℚ} :
    ∀ c ∈ formatBody q, isSpaceC c = false := by
  intro c hc
  rcases formatBody_chars c hc with h | h
  · exact isDigC_not_space h
  · subst h; decide

theorem centsOf_int_div (k : ℤ) : centsOf ((k : ℚ) / 100) = k.natAbs := by
  unfold centsOf
  have habs : |(k : ℚ) / 100| * 100 = ((k.natAbs : ℤ) : ℚ) := by
    rw [abs_div]
    push_cast [Int.cast_natAbs]
    rw [abs_of_pos (show (0 : ℚ) < 100 by norm_num)]
    field_simp
  rw [habs]
  have hfl : Int.floor (((k.natAbs : ℤ) : ℚ) + 1 / 2) = (k.natAbs : ℤ) := by
    rw [Int.floor_eq_iff]
    constructor
    · norm_num
    · push_cast
      norm_num
  rw [hfl, Int.toNat_natCast]

theorem parseFloat_AB (n : ℕ) :
    parseFloat (natToStr (n / 100) ++ '.' :: pad2 (n % 100))
      = some ((n : ℚ) / 100) := by
  have hmod : n % 100 < 100 := Nat.mod_lt _ (by norm_num)
  rw [parseFloat_dot _ _ (natToStr_all_dig _) (pad2_all_dig hmod)
    (natToStr_ne_nil _)]
  rw [natOfDigits_natToStr, natOfDigits_pad2 hmod, pad2_length hmod]
  have hdm : ((n / 100 : ℕ) : ℚ) * 100 + ((n % 100 : ℕ) : ℚ) = (n : ℚ) := by
    have h : n / 100 * 100 + n % 100 = n := by omega
    exact_mod_cast congrArg (fun m : ℕ => (m : ℚ)) h
  have h100 : ((10 : ℚ) ^ 2) = 100 := by norm_num
  rw [h100]
  field_simp
  linarith

theorem normalized_formatBody (q : ℚ) :
    ((formatBody q).filter (fun c => c != '.')).map commaToDot
      = natToStr (centsOf q / 100) ++ '.' :: pad2 (centsOf q % 100) := by
  have hmod : centsOf q % 100 < 100 := Nat.mod_lt _ (by norm_num)
  show (((natToStr (centsOf q / 100) ++ ',' :: pad2 (centsOf q % 100)).filter
      (fun c => c != '.')).map commaToDot) = _
  rw [List.filter_append, filter_bne_dot_digits (natToStr_all_dig _)]
  rw [show (',' :: pad2 (centsOf q % 100)).filter (fun c => c != '.')
      = ',' :: (pad2 (centsOf q % 100)).filter (fun c => c != '.') from by
    simp [List.filter_cons]]
  rw [filter_bne_dot_digits (pad2_all_dig hmod)]
  rw [List.map_append, map_commaToDot_digits (natToStr_all_dig _)]
  show _ ++ (commaToDot ',' :: (pad2 (centsOf q % 100)).map commaToDot) = _
  rw [map_commaToDot_digits (pad2_all_dig hmod)]
  rfl

theorem pyStrip_formatAmount (q : ℚ) :
    pyStrip (formatAmount q) = formatAmount q := by
  apply pyStrip_eq_self
  intro c hc
  unfold formatAmount at hc
  rcases List.mem_append.mp hc with h | h
  · exact formatBody_nospace c h
  · rcases List.mem_cons.mp h with h | h
    · subst h
      by_cases h0 : 0 ≤ q <;> simp [h0] <;> decide
    · simp at h

theorem amountBody_formatAmount (q : ℚ) :
    amountBody (formatAmount q)
      = natToStr (centsOf q / 100) ++ '.' :: pad2 (centsOf q % 100) := by
  unfold amountBody
  rw [show (formatAmount q).dropLast = formatBody q from List.dropLast_concat,
    pyStrip_eq_self formatBody_nospace, normalized_formatBody]

theorem amountSign_formatAmount (q : ℚ) :
    amountSign (formatAmount q) = if 0 ≤ q then 1 else -1 := by
  unfold amountSign formatAmount
  rw [List.getLast?_concat]
  by_cases h0 : 0 ≤ q <;> simp [h0]

theorem parse_format_roundtrip (k : ℤ) :
    parse_amount (formatAmount ((k : ℚ) / 100)) = some ((k : ℚ) / 100) := by
  unfold parse_amount
  rw [pyStrip_formatAmount, amountBody_formatAmount, centsOf_int_div,
    parseFloat_AB, amountSign_formatAmount, Option.map_some']
  congr 1
  by_cases h0 : (0 : ℚ) ≤ (k : ℚ) / 100
  · have hk : 0 ≤ k := by
      by_contra hneg
      push_neg at hneg
      have : (k : ℚ) / 100 < 0 := by
        apply div_neg_of_neg_of_pos _ (by norm_num)
        exact_mod_cast hneg
      linarith
    rw [if_pos h0, one_mul]
    have hcast : ((k.natAbs : ℚ)) = (k : ℚ) := by
      push_cast [Int.cast_natAbs]
      exact abs_of_nonneg (by exact_mod_cast hk)
    rw [hcast]
  · have hk : k < 0 := by
      by_contra hpos
      push_neg at hpos
      apply h0
      positivity
    rw [if_neg h0]
    have : (k.natAbs : ℚ) = -(k : ℚ) := by
      push_cast [Int.cast_natAbs]
      rw [abs_of_neg (by exact_mod_cast hk)]
    rw [this]
    ring

theorem parseValue_roundtrip (k : ℤ) :
    parseValue (formatColumns ((k : ℚ) / 100)).1 (formatColumns ((k : ℚ) / 100)).2
      = some ((k : ℚ) / 100) := by
  have hmod : centsOf ((k : ℚ) / 100) % 100 < 100 := Nat.mod_lt _ (by norm_num)
  have hnorm : (((formatBody ((k : ℚ) / 100)).filter (fun c => c != '.')).map
      commaToDot) = natToStr (centsOf ((k : ℚ) / 100) / 100) ++
        '.' :: pad2 (centsOf ((k : ℚ) / 100) % 100) := normalized_formatBody _
  have hchars : ∀ c ∈ natToStr (centsOf ((k : ℚ) / 100) / 100) ++
      '.' :: pad2 (centsOf ((k : ℚ) / 100) % 100), isDigC c = true ∨ c = '.' := by
    intro c hc
    rcases List.mem_append.mp hc with h | h
    · exact Or.inl (List.all_eq_true.mp (natToStr_all_dig _) c h)
    · rcases List.mem_cons.mp h with h | h
      · exact Or.inr h
      · exact Or.inl (List.all_eq_true.mp (pad2_all_dig hmod) c h)
  have hne : formatBody ((k : ℚ) / 100) ≠ [] := by
    unfold formatBody
    simp [natToStr_ne_nil]
  by_cases hneg : (k : ℚ) / 100 < 0
  · have hcol : formatColumns ((k : ℚ) / 100) = (formatBody ((k : ℚ) / 100), []) := by
      simp [formatColumns, hneg]
    rw [hcol]
    unfold parseValue
    rw [if_pos (by simpa using hne)]
    rw [hnorm]
    rw [List.filter_eq_self.mpr (by
      intro c hc
      rcases hchars c hc with h | h
      · exact isDigC_bne_minus h
      · subst h; decide)]
    rw [centsOf_int_div, parseFloat_AB, Option.map_some']
    congr 1
    have hk : k < 0 := by
      by_contra hpos
      push_neg at hpos
      apply absurd hneg
      push_neg
      positivity
    have : (k.natAbs : ℚ) = -(k : ℚ) := by
      push_cast [Int.cast_natAbs]
      rw [abs_of_neg (by exact_mod_cast hk)]
    rw [this]
    ring
  · have hcol : formatColumns ((k : ℚ) / 100) = ([], formatBody ((k : ℚ) / 100)) := by
      simp [formatColumns, hneg]
    rw [hcol]
    unfold parseValue
    rw [if_neg (by simp)]
    rw [if_pos (by simpa using hne)]
    rw [hnorm]
    rw [List.filter_eq_self.mpr (by
      intro c hc
      rcases hchars c hc with h | h
      · exact isDigC_bne_plus h
      · subst h; decide)]
    rw [centsOf_int_div, parseFloat_AB]
    congr 1
    have hk : 0 ≤ k := by
      by_contra hneg2
      push_neg at hneg2
      apply hneg
      apply div_neg_of_neg_of_pos _ (by norm_num)
      exact_mod_cast hneg2
    have hcast : ((k.natAbs : ℚ)) = (k : ℚ) := by
      push_cast [Int.cast_natAbs]
      exact abs_of_nonneg (by exact_mod_cast hk)
    rw [hcast]

/-! Structure of the row segmenter. -/

theorem splitCore_spec :
    ∀ (rows : List Row) (blocks : List (List Row)) (cur : List Row),
      cur ≠ [] →
      (splitFinish (rows.foldl splitStep (blocks, cur))).length
          = blocks.length + 1 + (rows.filter isTriggerRow).length
        ∧ (splitFinish (rows.foldl splitStep (blocks, cur))).join
          = blocks.join ++ cur ++ rows := by
  intro rows
  induction rows with
  | nil =>
    intro blocks cur hcur
    simp [splitFinish, hcur]
  | cons r rest ih =>
    intro blocks cur hcur
    by_cases hr : isTriggerRow r
    · have hstep : splitStep (blocks, cur) r = (blocks ++ [cur], [r]) := by
        simp [splitStep, hr, hcur]
      rw [List.foldl_cons, hstep]
      obtain ⟨hlen, hjoin⟩ := ih (blocks ++ [cur]) [r] (by simp)
      constructor
      · rw [hlen, List.filter_cons_of_pos hr]
        simp
        omega
      · rw [hjoin]
        simp
    · have hstep : splitStep (blocks, cur) r = (blocks, cur ++ [r]) := by
        simp [splitStep, hr]
      rw [List.foldl_cons, hstep]
      obtain ⟨hlen, hjoin⟩ := ih blocks (cur ++ [r]) (by simp)
      constructor
      · rw [hlen, List.filter_cons_of_neg (by simp [hr])]
      · rw [hjoin]
        simp

theorem splitCore_good :
    ∀ (rows : List Row) (blocks : List (List Row)) (cur : List Row),
      (∀ b ∈ blocks, ∃ r t, b = r :: t ∧ isTriggerRow r = true) →
      (∃ r t, cur = r :: t ∧ isTriggerRow r = true) →
      ∀ b ∈ splitFinish (rows.foldl splitStep (blocks, cur)),
        ∃ r t, b = r :: t ∧ isTriggerRow r = true := by
  intro rows
  induction rows with
  | nil =>
    intro blocks cur hb hc b hmem
    obtain ⟨r, t, rfl, hr⟩ := hc
    unfold splitFinish at hmem
    simp only [List.foldl_nil] at hmem
    rw [if_neg (by simp)] at hmem
    rcases List.mem_append.mp hmem with h | h
    · exact hb b h
    · rcases List.mem_singleton.mp h with rfl
      exact ⟨r, t, rfl, hr⟩
  | cons r rest ih =>
    intro blocks cur hb hc b hmem
    obtain ⟨r0, t0, rfl, hr0⟩ := hc
    by_cases hr : isTriggerRow r
    · have hstep : splitStep (blocks, r0 :: t0) r = (blocks ++ [r0 :: t0], [r]) := by
        simp [splitStep, hr]
      rw [List.foldl_cons, hstep] at hmem
      refine ih (blocks ++ [r0 :: t0]) [r] ?_ ⟨r, [], rfl, hr⟩ b hmem
      intro b' hb'
      rcases List.mem_append.mp hb' with h | h
      · exact hb b' h
      · rcases List.mem_singleton.mp h with rfl
        exact ⟨r0, t0, rfl, hr0⟩
    · have hstep : splitStep (blocks, r0 :: t0) r = (blocks, (r0 :: t0) ++ [r]) := by
        simp [splitStep, hr]
      rw [List.foldl_cons, hstep] at hmem
      exact ih blocks ((r0 :: t0) ++ [r]) hb ⟨r0, t0 ++ [r], by simp, hr0⟩ b hmem

/-- Segmenter structure under the hypothesis that no rows precede the
first trigger: one block per trigger row, every block headed by a trigger
row, and the blocks concatenate back to the input (original order). -/
theorem splitIntoBlocks_spec (rows : List Row)
    (h : rows = [] ∨ ∃ r rest, rows = r :: rest ∧ isTriggerRow r = true) :
    (splitIntoBlocks rows).length = (rows.filter isTriggerRow).length
      ∧ (∀ b ∈ splitIntoBlocks rows, ∃ r t, b = r :: t ∧ isTriggerRow r = true)
      ∧ (splitIntoBlocks rows).join = rows := by
  rcases h with rfl | ⟨r, rest, rfl, hr⟩
  · refine ⟨rfl, ?_, rfl⟩
    intro b hb
    simp [splitIntoBlocks, splitFinish] at hb
  · have hstep : splitStep ([], []) r = ([], [r]) := by
      simp [splitStep, hr]
    unfold splitIntoBlocks
    rw [List.foldl_cons, hstep]
    obtain ⟨hlen, hjoin⟩ := splitCore_spec rest [] [r] (by simp)
    refine ⟨?_, ?_, ?_⟩
    · rw [hlen, List.filter_cons_of_pos hr]
      simp
      omega
    · exact splitCore_good rest [] [r] (by simp) ⟨r, [], rfl, hr⟩
    · rw [hjoin]
      simp
  
/-! Structure of the block mapper. -/

theorem mem_mapBlocks {source : Str} :
    ∀ {bs : List (List Row)} {ts : List MTx},
      mapBlocks source bs = .ok ts →
      ∀ t ∈ ts, ∃ b ∈ bs, mapBlockToTransaction source b = .ok (some t) := by
  intro bs
  induction bs with
  | nil =>
    intro ts h t ht
    injection h with h'
    subst h'
    simp at ht
  | cons b rest ih =>
    intro ts h t ht
    unfold mapBlocks at h
    rcases hmb : mapBlockToTransaction source b with e | t? <;> rw [hmb] at h
    · cases h
    · rcases hrest : mapBlocks source rest with e | ts' <;> rw [hrest] at h
      · cases h
      · injection h with h'
        subst h'
        rcases t? with _ | t0
        · obtain ⟨b', hb', hmap⟩ := ih hrest t ht
          exact ⟨b', by simp [hb'], hmap⟩
        · rcases List.mem_cons.mp ht with rfl | hmem
          · exact ⟨b, by simp, hmb⟩
          · obtain ⟨b', hb', hmap⟩ := ih hrest t hmem
            exact ⟨b', by simp [hb'], hmap⟩

/-! Concrete amount parses. -/

theorem parse_amount_concrete (s a bfrac : Str) (sign v : ℚ)
    (hstrip : pyStrip s = s) (hbody : amountBody s = a ++ '.' :: bfrac)
    (ha : a.all isDigC = true) (hb : bfrac.all isDigC = true)
    (hane : a ≠ []) (hsign : amountSign s = sign)
    (hv : sign * ((natOfDigits a : ℚ) + (natOfDigits bfrac : ℚ) / 10 ^ bfrac.length) = v) :
    parse_amount s = some v := by
  unfold parse_amount
  rw [hstrip, hbody, parseFloat_dot a bfrac ha hb hane, Option.map_some', hsign, hv]

theorem parse_1250 : parse_amount (L "1.250,00+") = some 1250 := by
  refine parse_amount_concrete _ (L "1250") (L "00") 1 1250
    (by decide) (by decide) (by decide) (by decide) (by decide) rfl ?_
  rw [show natOfDigits (L "1250") = 1250 from by decide,
    show natOfDigits (L "00") = 0 from by decide,
    show (L "00").length = 2 from by decide]
  norm_num

theorem parse_1200 : parse_amount (L "1200,00+") = some 1200 := by
  refine parse_amount_concrete _ (L "1200") (L "00") 1 1200
    (by decide) (by decide) (by decide) (by decide) (by decide) rfl ?_
  rw [show natOfDigits (L "1200") = 1200 from by decide,
    show natOfDigits (L "00") = 0 from by decide,
    show (L "00").length = 2 from by decide]
  norm_num

/-! Field structure of mapped transactions. -/

theorem mapBlock_ok_some_fields {src : Str} {block : List Row} {t : MTx}
    (h : mapBlockToTransaction src block = .ok (some t)) :
    ∃ r rest, block = r :: rest
      ∧ containsSub (pyStrip r.text) checkpointMarker = false
      ∧ t.txType = pyStrip r.text
      ∧ t.id = pyStrip r.pnnr
      ∧ t.transaction_date = L "1993-09-07"
      ∧ t.valuta_date = L "1993-09-07"
      ∧ t.currency = L "EUR"
      ∧ t.owner = { name := L "Max", ownerId := L "testid", institute := L "Consorsbank" } := by
  rcases block with _ | ⟨first, tail⟩
  · rw [show mapBlockToTransaction src [] = .error (L "IndexError: block[0]") from rfl] at h
    exact Except.noConfusion h
  · refine ⟨first, tail, rfl, ?_⟩
    unfold mapBlockToTransaction at h
    dsimp only at h
    by_cases hcp : containsSub (pyStrip first.text) checkpointMarker = true
    · rw [if_pos hcp] at h
      simp at h
    · rw [if_neg hcp] at h
      have hcp' : containsSub (pyStrip first.text) checkpointMarker = false := by
        simpa using hcp
      rcases h1 : (first :: tail)[1]? with _ | r1 <;> rw [h1] at h
      · exact Except.noConfusion h
      · rcases h2 : (first :: tail)[2]? with _ | r2 <;> rw [h2] at h
        · exact Except.noConfusion h
        · dsimp only at h
          injection h with h'
          injection h' with h''
          subst h''
          exact ⟨hcp', rfl, rfl, rfl, rfl, rfl, rfl⟩

/-- Claim C1 (corrected): the segmenter does not discard rows preceding
the first trigger; they accumulate into an extra leading block, so a
stream of three trigger-free rows yields one block (not zero) and the
extraction over it is not the empty transaction sequence. -/
theorem c1_counterexample :
    (List.filter isTriggerRow [mkRow "aa", mkRow "bb", mkRow "cc"]).length = 0
      ∧ (splitIntoBlocks [mkRow "aa", mkRow "bb", mkRow "cc"]).length = 1
      ∧ typesOf (map_transactions (L "doc.pdf") [mkRow "aa", mkRow "bb", mkRow "cc"])
          = [L "aa"]
      ∧ map_transactions (L "doc.pdf") [mkRow "aa", mkRow "bb", mkRow "cc"]
          ≠ .ok [] := by
  have ht : typesOf (map_transactions (L "doc.pdf") [mkRow "aa", mkRow "bb", mkRow "cc"])
      = [L "aa"] := by decide
  refine ⟨by decide, by decide, ht, ?_⟩
  intro hc
  rw [hc] at ht
  exact absurd ht (by decide)

/-- Claim C1 (amended): for every row stream with no rows before the first
trigger (empty, or starting with a triggering row), segmentation emits
exactly one block per trigger row, every block starts with a triggering
row, the blocks concatenate back to the stream in original order, and the
empty stream yields zero blocks and an empty extraction. -/
theorem c1_segmenter_blocks (rows : List Row)
    (h : rows = [] ∨ ∃ r rest, rows = r :: rest ∧ isTriggerRow r = true) :
    (splitIntoBlocks rows).length = (rows.filter isTriggerRow).length
      ∧ (∀ b ∈ splitIntoBlocks rows, ∃ r t, b = r :: t ∧ isTriggerRow r = true)
      ∧ (splitIntoBlocks rows).join = rows
      ∧ (rows = [] → ∀ src, map_transactions src rows = .ok []) := by
  obtain ⟨h1, h2, h3⟩ := splitIntoBlocks_spec rows h
  refine ⟨h1, h2, h3, ?_⟩
  rintro rfl src
  rfl

/-- Witness for C1's amended theorem at a concrete two-row stream. -/
theorem c1_witness :
    (splitIntoBlocks [mkRow "LASTSCHRIFT", mkRow "x"]).length
        = (List.filter isTriggerRow [mkRow "LASTSCHRIFT", mkRow "x"]).length
      ∧ (∀ b ∈ splitIntoBlocks [mkRow "LASTSCHRIFT", mkRow "x"],
          ∃ r t, b = r :: t ∧ isTriggerRow r = true)
      ∧ (splitIntoBlocks [mkRow "LASTSCHRIFT", mkRow "x"]).join
          = [mkRow "LASTSCHRIFT", mkRow "x"]
      ∧ ([mkRow "LASTSCHRIFT", mkRow "x"] = [] →
          ∀ src, map_transactions src [mkRow "LASTSCHRIFT", mkRow "x"] = .ok []) :=
  c1_segmenter_blocks [mkRow "LASTSCHRIFT", mkRow "x"]
    (Or.inr ⟨mkRow "LASTSCHRIFT", [mkRow "x"], rfl, by decide⟩)

/-- Claim C7: formatting a two-decimal signed value and re-parsing it
returns the original value exactly, for the signed-suffix encoding
(`format_amount` then `parse_amount`) and for the debit/credit-column
encoding (column rendering then `_parse_value`). -/
theorem c7_roundtrip (k : ℤ) :
    parse_amount (formatAmount ((k : ℚ) / 100)) = some ((k : ℚ) / 100)
      ∧ parseValue (formatColumns ((k : ℚ) / 100)).1 (formatColumns ((k : ℚ) / 100)).2
        = some ((k : ℚ) / 100) :=
  ⟨parse_format_roundtrip k, parseValue_roundtrip k⟩

/-- Claim C10: when the stripped input ends in neither `'+'` nor `'-'`,
`parse_amount` still drops the final character (the `amountBody`
normalisation applies `s[:-1]` unconditionally) and applies the positive
sign. -/
theorem c10_drops_last_char (s : Str)
    (h1 : (pyStrip s).getLast? ≠ some '+') (h2 : (pyStrip s).getLast? ≠ some '-') :
    parse_amount s = parseFloat (amountBody (pyStrip s))
      ∧ amountSign (pyStrip s) = 1 := by
  have hsign : amountSign (pyStrip s) = 1 := by
    unfold amountSign
    rw [if_neg h1, if_neg h2]
  refine ⟨?_, hsign⟩
  unfold parse_amount
  rw [hsign]
  cases hpf : parseFloat (amountBody (pyStrip s)) <;> simp

/-- Witness for C10 at the claim's example: `parse_amount("1200")` is
`120.0`, not `1200.0`. -/
theorem c10_witness :
    parse_amount (L "1200") = parseFloat (amountBody (pyStrip (L "1200")))
      ∧ amountSign (pyStrip (L "1200")) = 1
      ∧ parse_amount (L "1200") = some 120
      ∧ parse_amount (L "1200") ≠ some 1200 := by
  obtain ⟨he, hs⟩ := c10_drops_last_char (L "1200") (by decide) (by decide)
  have h120 : parse_amount (L "1200") = some 120 := by
    rw [he, show amountBody (pyStrip (L "1200")) = L "120" from by decide,
      parseFloat_digits (by decide) (by decide),
      show natOfDigits (L "120") = 120 from by decide]
    norm_num
  refine ⟨he, hs, h120, ?_⟩
  rw [h120]
  intro hcontra
  injection hcontra with h'
  exact absurd h' (by norm_num)

/-- Value field of a block transaction: the parsed (possibly inferred)
amount string. -/
theorem mkTTx_value (p : Str) (g : Option Str) (b : TextBlock) (d a : Str) :
    (mkTTx p g b d a).value = parse_amount a := rfl

/-- Claim C2: a GUTSCHRIFT block (which never carries a directly
extractable amount in this engine) gets `current − previous` as its value
when both checkpoints are available and parse as two-decimal amounts, and
an unset (`None`) value when either checkpoint is missing. -/
theorem c2_balance_diff (path : Str) (gy : Option Str) (b : TextBlock)
    (hg : pyStrip b.transType = L "GUTSCHRIFT") :
    (∀ (p c : ℚ) (m n : ℤ), p = (m : ℚ) / 100 → c = (n : ℚ) / 100 →
        currentBalanceOf b = some c →
        ∃ t, (processBlock path gy (some p) b).2 = some t ∧ t.value = some (c - p))
      ∧ (∀ t, (processBlock path gy none b).2 = some t → t.value = none)
      ∧ (∀ p t, currentBalanceOf b = none →
          (processBlock path gy (some p) b).2 = some t → t.value = none) := by
  have hdeb : isDebitType (pyStrip b.transType) = false := by
    rw [hg]
    decide
  have hraw0 : blockRawFields b = some
      ((gutschriftDates b.blockText).1, (gutschriftDates b.blockText).2, []) := by
    unfold blockRawFields
    rw [hdeb]
    simp
  have hpb : ∀ prev, processBlock path gy prev b
      = (advanceBalance prev (currentBalanceOf b),
         some (mkTTx path gy b (gutschriftDates b.blockText).1
           (inferredAmount (pyStrip b.transType) [] prev (currentBalanceOf b)))) := by
    intro prev
    unfold processBlock
    rw [hraw0]
  refine ⟨?_, ?_, ?_⟩
  · intro p c m n hp hc hcur
    rw [hpb]
    refine ⟨_, rfl, ?_⟩
    rw [mkTTx_value, hg, hcur]
    unfold inferredAmount
    rw [if_pos ⟨rfl, Or.inl rfl⟩]
    show parse_amount (formatAmount (c - p)) = some (c - p)
    subst hp hc
    have hsub : (n : ℚ) / 100 - (m : ℚ) / 100 = ((n - m : ℤ) : ℚ) / 100 := by
      push_cast
      ring
    rw [hsub, parse_format_roundtrip]
  · intro t ht
    rw [hpb] at ht
    injection ht with ht'
    rw [← ht', mkTTx_value, hg]
    unfold inferredAmount
    rw [if_pos ⟨rfl, Or.inl rfl⟩]
    rcases hcb : currentBalanceOf b with _ | c0 <;> rfl
  · intro p t hcur ht
    rw [hpb] at ht
    injection ht with ht'
    rw [← ht', mkTTx_value, hg, hcur]
    unfold inferredAmount
    rw [if_pos ⟨rfl, Or.inl rfl⟩]
    rfl

/-- Witness for C2 at the claim's example: checkpoints 1000.00 then
1250.00 give an inferred value of 250.00. -/
theorem c2_witness :
    ∃ t, (processBlock (L "doc") none (some 1000) blkGut).2 = some t
      ∧ t.value = some 250 := by
  have h0 : currentBalanceOf blkGut = parse_amount (L "1.250,00+") := rfl
  have hcur : currentBalanceOf blkGut = some 1250 := by
    rw [h0]
    exact parse_1250
  obtain ⟨t, ht, hv⟩ := (c2_balance_diff (L "doc") none blkGut (by decide)).1
    1000 1250 100000 125000 (by norm_num) (by norm_num) hcur
  refine ⟨t, ht, ?_⟩
  rw [hv, show (1250 : ℚ) - 1000 = 250 from by norm_num]

/-- Claim C4 (amended): every block the engine does not skip stores its
parsable checkpoint as the new `previous_balance`, regardless of
transaction type, and also emits a transaction; but a LASTSCHRIFT or
EURO-UEBERW. block with no detail match is skipped entirely (`continue`)
and leaves the tracker unchanged even when its content carries a
checkpoint. -/
theorem c4_checkpoint_tracking (path : Str) (gy : Option Str) (prev : Option ℚ)
    (b : TextBlock) :
    (∀ v, currentBalanceOf b = some v → blockRawFields b ≠ none →
        (processBlock path gy prev b).1 = some v
          ∧ (processBlock path gy prev b).2 ≠ none)
      ∧ (blockRawFields b = none → processBlock path gy prev b = (prev, none)) := by
  constructor
  · intro v hv hbf
    rcases hraw : blockRawFields b with _ | ⟨d1, d2, a0⟩
    · exact absurd hraw hbf
    · unfold processBlock
      rw [hraw]
      dsimp only
      rw [hv]
      exact ⟨rfl, by simp⟩
  · intro hraw
    unfold processBlock
    rw [hraw]

/-- Witness for C4's amended theorem: a GUTSCHRIFT block with checkpoint
1200.00 advances the tracker to 1200 and emits a transaction. -/
theorem c4_witness :
    (processBlock (L "d") none none blkGut2).1 = some 1200
      ∧ (processBlock (L "d") none none blkGut2).2 ≠ none := by
  have h0 : currentBalanceOf blkGut2 = parse_amount (L "1200,00+") := rfl
  have hcur : currentBalanceOf blkGut2 = some 1200 := by
    rw [h0]
    exact parse_1200
  exact (c4_checkpoint_tracking (L "d") none none blkGut2).1 1200 hcur (by decide)

/-- Claim C4 fails as stated: a LASTSCHRIFT block whose content includes
the checkpoint marker with the parsable amount 1200.00 but no detail match
is skipped, so the tracker is not advanced to that checkpoint
(`previous_balance` stays `None`). -/
theorem c4_counterexample :
    processBlock (L "d") none none blkSkip = (none, none)
      ∧ blkSkip.balance? = some (L "1200,00+")
      ∧ parse_amount (L "1200,00+") = some 1200 :=
  ⟨rfl, rfl, parse_1200⟩

/-- Claim C5 (amended): the column parser returns the negated parsed
remainder for a populated debit string — nonpositive always, since that
branch removes every `'-'` — and the parsed remainder itself for a
populated credit string with empty debit, nonnegative whenever the credit
string carries no minus sign; a non-numeric remainder yields `None` in
both encodings (suffix parsing included), never a zero default. The
suffix parser multiplies by `-1` exactly under the `'-'` marker, so its
result is nonpositive (resp. nonnegative) whenever the normalised body
carries no minus sign of its own; a leading minus in the body inverts
this, e.g. `parse_amount("-5,00-") = +5.0`. Zero amounts parse to `0`,
which is neither negative nor positive. -/
theorem c5_sign_behaviour :
    (∀ soll haben : Str, soll ≠ [] →
        parseValue soll haben
            = (parseFloat (((soll.filter (fun c => c != '.')).map commaToDot).filter
                (fun c => c != '-'))).map (fun q => -q)
          ∧ ∀ q, parseValue soll haben = some q → q ≤ 0)
      ∧ (∀ soll haben : Str, soll = [] → haben ≠ [] →
          parseValue soll haben
              = parseFloat (((haben.filter (fun c => c != '.')).map commaToDot).filter
                  (fun c => c != '+'))
            ∧ ('-' ∉ haben → ∀ q, parseValue soll haben = some q → 0 ≤ q))
      ∧ (∀ s : Str, parseFloat (amountBody (pyStrip s)) = none →
          parse_amount s = none)
      ∧ (∀ (s : Str) (q : ℚ), parse_amount s = some q →
          '-' ∉ amountBody (pyStrip s) →
          ((pyStrip s).getLast? = some '-' → q ≤ 0)
            ∧ ((pyStrip s).getLast? ≠ some '-' → 0 ≤ q))
      ∧ parse_amount (L "-5,00-") = some 5 := by
  refine ⟨?_, ?_, ?_, ?_, ?_⟩
  · intro soll haben hs
    have heq : parseValue soll haben
        = (parseFloat (((soll.filter (fun c => c != '.')).map commaToDot).filter
            (fun c => c != '-'))).map (fun q => -q) := by
      unfold parseValue
      rw [if_pos hs]
    refine ⟨heq, ?_⟩
    intro q hq
    rw [heq] at hq
    obtain ⟨m, hm, rfl⟩ := Option.map_eq_some'.mp hq
    have hnom : '-' ∉ ((soll.filter (fun c => c != '.')).map commaToDot).filter
        (fun c => c != '-') := by
      intro hmem
      have hbne := (List.mem_filter.mp hmem).2
      simp at hbne
    have := parseFloat_nonneg_of_no_minus hnom hm
    linarith
  · intro soll haben hs hh
    subst hs
    have heq : parseValue [] haben
        = parseFloat (((haben.filter (fun c => c != '.')).map commaToDot).filter
            (fun c => c != '+')) := by
      unfold parseValue
      rw [if_neg (by simp), if_pos hh]
    refine ⟨heq, ?_⟩
    intro hminus q hq
    rw [heq] at hq
    have hnom : '-' ∉ ((haben.filter (fun c => c != '.')).map commaToDot).filter
        (fun c => c != '+') := by
      intro hmem
      obtain ⟨x, hx, hxe⟩ := List.mem_map.mp (List.mem_filter.mp hmem).1
      by_cases hxc : x = ','
      · subst hxc
        simp [commaToDot] at hxe
      · rw [show commaToDot x = x from by simp [commaToDot, hxc]] at hxe
        subst hxe
        exact hminus (List.mem_of_mem_filter hx)
    exact parseFloat_nonneg_of_no_minus hnom hq
  · intro s hnone
    unfold parse_amount
    rw [hnone]
    rfl
  · intro s q h hnom
    unfold parse_amount at h
    obtain ⟨m, hm, rfl⟩ := Option.map_eq_some'.mp h
    have hm0 := parseFloat_nonneg_of_no_minus hnom hm
    constructor
    · intro hlast
      have hsgn : amountSign (pyStrip s) = -1 := by
        unfold amountSign
        rw [hlast, if_neg (by decide), if_pos rfl]
      rw [hsgn]
      linarith
    · intro hlast
      have hsgn : amountSign (pyStrip s) = 1 := by
        unfold amountSign
        by_cases hp : (pyStrip s).getLast? = some '+'
        · rw [if_pos hp]
        · rw [if_neg hp, if_neg hlast]
      rw [hsgn]
      linarith
  · unfold parse_amount
    rw [show pyStrip (L "-5,00-") = L "-5,00-" from by decide]
    rw [show amountBody (L "-5,00-") = '-' :: (L "5" ++ '.' :: L "00") from by decide]
    rw [parseFloat_minus,
      parseFloatUnsigned_dot (L "5") (L "00") (by decide) (by decide) (by decide)]
    rw [Option.map_some', Option.map_some']
    rw [show amountSign (L "-5,00-") = -1 from rfl]
    congr 1
    rw [show natOfDigits (L "5") = 5 from by decide,
      show natOfDigits (L "00") = 0 from by decide,
      show (L "00").length = 2 from by decide]
    norm_num

/-- Claim C5 fails as stated: the zero amount is populated yet parses to
`0`, which is not negative (suffix `'-'` encoding) and not positive
(credit-column encoding would likewise give `0`); here the debit column
gives `-0 = 0`. -/
theorem c5_counterexample :
    parse_amount (L "0,00-") = some 0
      ∧ parseValue (L "0,00") [] = some 0
      ∧ ¬ (0 : ℚ) < 0 := by
  refine ⟨?_, ?_, by norm_num⟩
  · refine parse_amount_concrete _ (L "0") (L "00") (-1) 0
      (by decide) (by decide) (by decide) (by decide) (by decide) rfl ?_
    rw [show natOfDigits (L "0") = 0 from by decide,
      show natOfDigits (L "00") = 0 from by decide,
      show (L "00").length = 2 from by decide]
    norm_num
  · unfold parseValue
    rw [if_pos (by decide)]
    rw [show (((L "0,00").filter (fun c => c != '.')).map commaToDot).filter
        (fun c => c != '-') = L "0" ++ '.' :: L "00" from by decide]
    rw [parseFloat_dot _ _ (by decide) (by decide) (by decide), Option.map_some']
    congr 1
    rw [show natOfDigits (L "0") = 0 from by decide,
      show natOfDigits (L "00") = 0 from by decide,
      show (L "00").length = 2 from by decide]
    norm_num

/-- Witness for C5's amended theorem: a populated debit column `"50,00"`
parses to `-50`. -/
theorem c5_witness : parseValue (L "50,00") [] = some (-50 : ℚ) := by
  have h := (c5_sign_behaviour.1 (L "50,00") [] (by decide)).1
  rw [h]
  rw [show (((L "50,00").filter (fun c => c != '.')).map commaToDot).filter
      (fun c => c != '-') = L "50" ++ '.' :: L "00" from by decide]
  rw [parseFloat_dot _ _ (by decide) (by decide) (by decide), Option.map_some']
  congr 1
  rw [show natOfDigits (L "50") = 50 from by decide,
    show natOfDigits (L "00") = 0 from by decide,
    show (L "00").length = 2 from by decide]
  norm_num

/-- Claim C6 (amended): the Date Normalizer maps the four example inputs
as stated; year-elided input with no (or empty) inferred year, and any
input matching neither recognised shape, is returned with only its
surrounding whitespace removed — verbatim when it has none. -/
theorem c6_date_normalizer :
    (∀ gy, convert_to_iso (L "31.10.22") gy = L "2022-10-31")
      ∧ (∀ gy, convert_to_iso (L "05.01.2023") gy = L "2023-01-05")
      ∧ convert_to_iso (L "12.03.") (some (L "2022")) = L "2022-03-12"
      ∧ convert_to_iso (L "12.03.") none = L "12.03."
      ∧ (∀ s gy, elidedDateShape (pyStrip s) = true → (gy = none ∨ gy = some []) →
          convert_to_iso s gy = pyStrip s)
      ∧ (∀ s gy, fullDateShape (pyStrip s) = false →
          elidedDateShape (pyStrip s) = false → convert_to_iso s gy = pyStrip s) := by
  refine ⟨fun gy => rfl, fun gy => rfl, rfl, rfl, ?_, ?_⟩
  · intro s gy hsh hgy
    unfold elidedDateShape at hsh
    unfold convert_to_iso
    rcases hdp : dateParts (pyStrip s) with _ | ⟨d1, d2, m1, m2, rest⟩
    · rfl
    · rw [hdp] at hsh
      dsimp only at hsh ⊢
      have hrest : rest = [] := by simpa [List.isEmpty_iff] using hsh
      subst hrest
      rw [if_neg (by simp)]
      rcases hgy with rfl | rfl
      · rw [if_neg (by simp)]
      · rw [if_neg (by simp)]
  · intro s gy hfull helided
    unfold fullDateShape at hfull
    unfold elidedDateShape at helided
    unfold convert_to_iso
    rcases hdp : dateParts (pyStrip s) with _ | ⟨d1, d2, m1, m2, rest⟩
    · rfl
    · rw [hdp] at hfull helided
      dsimp only at hfull helided ⊢
      have hrest_ne : rest ≠ [] := by
        intro h
        subst h
        simp at helided
      rw [if_pos hrest_ne, if_neg ?_]
      rintro ⟨h1, h2, h3⟩
      rw [h1, decide_eq_true h2, decide_eq_true h3] at hfull
      simp at hfull

/-- Claim C6 fails only on its pass-through wording: a year-elided input
with surrounding whitespace and no inferred year is returned stripped,
not unmodified. -/
theorem c6_counterexample :
    convert_to_iso (L " 12.03.") none = L "12.03."
      ∧ L "12.03." ≠ L " 12.03." :=
  ⟨by decide, by decide⟩

/-- Witness for C6's amended theorem at an unrecognised input shape. -/
theorem c6_witness :
    convert_to_iso (L "not a date") none = pyStrip (L "not a date") :=
  c6_date_normalizer.2.2.2.2.2 (L "not a date") none (by decide) (by decide)

/-- Claim C3 (amended): a block whose first row contains the
balance-checkpoint marker never becomes a transaction, and on streams
whose blocks all start at triggers every emitted transaction's type
carries a transaction-type marker and not the checkpoint marker; however
a leading block of pre-trigger rows (see C1) is also emitted without any
triggering keyword. -/
theorem c3_checkpoint_never_emitted :
    (∀ (src : Str) (block : List Row) (r : Row) (tl : List Row),
        block = r :: tl →
        containsSub (pyStrip r.text) checkpointMarker = true →
        mapBlockToTransaction src block = .ok none)
      ∧ (∀ (src : Str) (rows : List Row) (ts : List MTx),
          (rows = [] ∨ ∃ r rest, rows = r :: rest ∧ isTriggerRow r = true) →
          map_transactions src rows = .ok ts →
          ∀ t ∈ ts,
            (∃ g ∈ TRIGGERS, g ≠ checkpointMarker ∧ containsSub t.txType g = true)
              ∧ containsSub t.txType checkpointMarker = false) := by
  constructor
  · intro src block r tl hbl hcp
    subst hbl
    unfold mapBlockToTransaction
    dsimp only
    rw [if_pos hcp]
  · intro src rows ts hstream hrun t ht
    obtain ⟨b, hb, hmap⟩ := mem_mapBlocks hrun t ht
    obtain ⟨r, rest, hbr, hcp, htype, _⟩ := mapBlock_ok_some_fields hmap
    obtain ⟨_, hgood, _⟩ := splitIntoBlocks_spec rows hstream
    obtain ⟨r', t', hb_eq, htrig⟩ := hgood b hb
    have hrr : r :: rest = r' :: t' := hbr.symm.trans hb_eq
    injection hrr with hr _
    subst hr
    unfold isTriggerRow at htrig
    obtain ⟨g, hgmem, hgsub⟩ := List.any_eq_true.mp htrig
    rw [htype]
    constructor
    · refine ⟨g, hgmem, ?_, hgsub⟩
      intro hgeq
      subst hgeq
      exact absurd hgsub (by simp [hcp])
    · exact hcp

/-- Claim C3 fails as stated for streams with pre-trigger rows: a stream
of three trigger-free rows emits one transaction although its block has
no triggering keyword at all (its type `"u1"` contains no trigger). -/
theorem c3_counterexample :
    typesOf (map_transactions (L "d") [mkRow "u1", mkRow "u2", mkRow "u3"]) = [L "u1"]
      ∧ TRIGGERS.all (fun g => !(containsSub (L "u1") g)) = true :=
  ⟨by decide, by decide⟩

/-- Witness for C3's amended theorem: a checkpoint-marker block maps to
no transaction. -/
theorem c3_witness :
    mapBlockToTransaction (L "d") [mkRow "*** Kontostand zum 31.12."] = .ok none :=
  c3_checkpoint_never_emitted.1 (L "d") _ (mkRow "*** Kontostand zum 31.12.") []
    rfl (by decide)

/-- Claim C8 (amended): an emitted transaction's id always comes from the
first row's PNNr column (empty when absent); the sequential generator
`getId` is never consulted and ids are not guaranteed unique. -/
theorem c8_id_always_pnnr (src : Str) (block : List Row) (t : MTx)
    (h : mapBlockToTransaction src block = .ok (some t)) :
    ∃ r rest, block = r :: rest ∧ t.id = pyStrip r.pnnr := by
  obtain ⟨r, rest, hbr, _, _, hid, _⟩ := mapBlock_ok_some_fields h
  exact ⟨r, rest, hbr, hid⟩

/-- Claim C8 fails as stated: two PNNr-less trigger blocks both get the
empty string as id — no engine-assigned sequential integer appears and
the ids coincide, so they are not unique within the run. -/
theorem c8_counterexample :
    idsOf (map_transactions (L "s")
        [mkRow "LASTSCHRIFT", mkRow "a", mkRow "b",
         mkRow "GUTSCHRIFT", mkRow "c", mkRow "d"]) = [[], []]
      ∧ ¬ (idsOf (map_transactions (L "s")
          [mkRow "LASTSCHRIFT", mkRow "a", mkRow "b",
           mkRow "GUTSCHRIFT", mkRow "c", mkRow "d"])).Nodup :=
  ⟨by decide, by decide⟩

/-- Witness for C8's amended theorem: the id of the transaction mapped
from `blockPn` is its first row's PNNr `"417"`. -/
theorem c8_witness :
    ∃ r rest, blockPn = r :: rest ∧ txPn.id = pyStrip r.pnnr :=
  c8_id_always_pnnr (L "doc") blockPn txPn rfl

/-- Claim C9: every transaction emitted by the row mapper has both dates
equal to the constant `"1993-09-07"`, currency `"EUR"` and the constant
owner record; and the mapper's output is invariant under arbitrary
changes to the rows' `Datum`/`Wert` columns (they are never consulted). -/
theorem c9_constant_fields :
    (∀ (src : Str) (block : List Row) (t : MTx),
        mapBlockToTransaction src block = .ok (some t) →
        t.transaction_date = L "1993-09-07" ∧ t.valuta_date = L "1993-09-07"
          ∧ t.currency = L "EUR"
          ∧ t.owner = { name := L "Max", ownerId := L "testid"
                        institute := L "Consorsbank" })
      ∧ (∀ (src : Str) (block : List Row) (d w : Str),
          mapBlockToTransaction src (block.map (fun r => { r with datum := d, wert := w }))
            = mapBlockToTransaction src block) := by
  constructor
  · intro src block t h
    obtain ⟨r, rest, _, _, _, _, h1, h2, h3, h4⟩ := mapBlock_ok_some_fields h
    exact ⟨h1, h2, h3, h4⟩
  · intro src block d w
    rcases block with _ | ⟨r, tail⟩
    · rfl
    · rcases tail with _ | ⟨r1, t1⟩
      · rfl
      · rcases t1 with _ | ⟨r2, t2⟩
        · rfl
        · rcases t2 with _ | ⟨r3, t3⟩
          · rfl
          · unfold mapBlockToTransaction
            simp only [List.map_cons, List.getElem?_cons_succ, List.getElem?_cons_zero]

/-- Witness for C9 at the concrete block `block9`. -/
theorem c9_witness :
    tx9.transaction_date = L "1993-09-07" ∧ tx9.valuta_date = L "1993-09-07"
      ∧ tx9.currency = L "EUR"
      ∧ tx9.owner = { name := L "Max", ownerId := L "testid"
                      institute := L "Consorsbank" } :=
  c9_constant_fields.1 (L "d") block9 tx9 rfl
